import Mathlib

/-!
Verification of the fact-graph export engine of `jinaga-export-postgres`
(`src/index.ts`: `streamFacts`, `findPredecessor`, `stripIdFromPredecessor`,
`stripIdFromFact`, `writeFactual`, and the driving `Readable.read` loop).

The TypeScript code is shallowly embedded: JS objects with ordered string
keys become association lists, JS strings become `List Char` where character
level reasoning is needed, the union type
`PredecessorInformation | PredecessorInformation[]` becomes an inductive
with a `single` and a `multiple` constructor, and the fallible streaming
loop becomes a total function over an explicit list of batch outcomes.
-/

/-- Scalar JSON field value, as in
`fields: { [key: string]: string | number | boolean | null }`. -/
inductive FieldValue where
  | str (s : String)
  | num (n : Int)
  | bool (b : Bool)
  | null
deriving DecidableEq, Repr

/-- `PredecessorInformation`: a declared predecessor reference `{hash, type}`. -/
structure PredecessorInformation where
  hash : String
  type : String
deriving DecidableEq, Repr

/-- `PredecessorInformationWithId`: a candidate / resolved predecessor
`{hash, type, fact_id}` as built by
`jsonb_build_object('hash', hash, 'type', type, 'fact_id', fact_id)`. -/
structure PredecessorInformationWithId where
  hash : String
  type : String
  fact_id : Nat
deriving DecidableEq, Repr

/-- A declared role value: `PredecessorInformation | PredecessorInformation[]`. -/
inductive DeclaredValue where
  | single (p : PredecessorInformation)
  | multiple (ps : List PredecessorInformation)
deriving DecidableEq, Repr

/-- A resolved role value:
`PredecessorInformationWithId | PredecessorInformationWithId[]`. -/
inductive ResolvedValue where
  | single (p : PredecessorInformationWithId)
  | multiple (ps : List PredecessorInformationWithId)
deriving DecidableEq, Repr

/-- A raw row produced by the SQL query in `streamFacts`: the fact's own
identity, its `data->'fields'`, its `data->'predecessors'` (declared
references, in object key order), and the aggregated
`predecessor_array` of candidates for this row. -/
structure RawFactRow where
  fact_id : Nat
  hash : String
  type : String
  fields : List (String × FieldValue)
  predecessors : List (String × DeclaredValue)
  predecessor_array : List PredecessorInformationWithId
deriving DecidableEq, Repr

/-- `FactInformationWithId`: a fully resolved fact, predecessor roles now
holding candidates that carry surrogate ids. -/
structure FactInformationWithId where
  fact_id : Nat
  hash : String
  type : String
  predecessors : List (String × ResolvedValue)
  fields : List (String × FieldValue)
deriving DecidableEq, Repr

/-- `FactInformation`: the id-stripped fact emitted by the `json` format. -/
structure FactInformation where
  hash : String
  type : String
  predecessors : List (String × DeclaredValue)
  fields : List (String × FieldValue)
deriving DecidableEq, Repr

/-- `findPredecessor(predecessorArray, p)`:
`predecessorArray.find(pa => pa.type === p.type && pa.hash === p.hash)` —
the first candidate matching on `(type, hash)`. -/
def findPredecessor (predecessorArray : List PredecessorInformationWithId)
    (p : PredecessorInformation) : Option PredecessorInformationWithId :=
  predecessorArray.find? (fun pa => pa.type == p.type && pa.hash == p.hash)

/-- The inner loop over a multi-valued role: look each element up in order,
failing the whole role at the first miss. -/
def resolveRefs (cands : List PredecessorInformationWithId) :
    List PredecessorInformation → Option (List PredecessorInformationWithId)
  | [] => some []
  | p :: ps =>
    match findPredecessor cands p with
    | none => none
    | some c => (resolveRefs cands ps).map (c :: ·)

/-- Resolution of one role value (the `Array.isArray` branch of the loop
body in `streamFacts`). -/
def resolveValue (cands : List PredecessorInformationWithId) :
    DeclaredValue → Option ResolvedValue
  | .single p => (findPredecessor cands p).map ResolvedValue.single
  | .multiple ps => (resolveRefs cands ps).map ResolvedValue.multiple

/-- The `for (const key in factInfo.predecessors)` loop: resolve every role
in declaration order, failing the whole fact at the first miss. -/
def resolveAll (cands : List PredecessorInformationWithId) :
    List (String × DeclaredValue) → Option (List (String × ResolvedValue))
  | [] => some []
  | (k, v) :: rest =>
    match resolveValue cands v with
    | none => none
    | some r => (resolveAll cands rest).map ((k, r) :: ·)

/-- Resolution of one raw row: `some` of the resolved fact when every
declared reference is found (`allPredecessorsFound`), `none` when the row
is dropped. -/
def resolveRow (row : RawFactRow) : Option FactInformationWithId :=
  (resolveAll row.predecessor_array row.predecessors).map (fun preds =>
    { fact_id := row.fact_id, hash := row.hash, type := row.type
      predecessors := preds, fields := row.fields })

/-- `stripIdFromPredecessor`: drop `fact_id`, keep `{hash, type}`. -/
def stripIdFromPredecessor (predecessor : PredecessorInformationWithId) :
    PredecessorInformation :=
  { hash := predecessor.hash, type := predecessor.type }

/-- The per-role part of `stripIdFromFact`. -/
def stripIdFromValue : ResolvedValue → DeclaredValue
  | .single p => .single (stripIdFromPredecessor p)
  | .multiple ps => .multiple (ps.map stripIdFromPredecessor)

/-- `stripIdFromFact`: drop the fact's own `fact_id` and every predecessor
`fact_id`, keeping everything else unchanged. -/
def stripIdFromFact (fact : FactInformationWithId) : FactInformation :=
  { hash := fact.hash, type := fact.type
    predecessors := fact.predecessors.map (fun kv => (kv.1, stripIdFromValue kv.2))
    fields := fact.fields }

/-- Does a candidate list contain a `(type, hash)` match for a reference? -/
def refHasMatch (cands : List PredecessorInformationWithId)
    (p : PredecessorInformation) : Bool :=
  cands.any (fun pa => pa.type == p.type && pa.hash == p.hash)

/-- Does every reference of a role value have a candidate match? -/
def valueFound (cands : List PredecessorInformationWithId) : DeclaredValue → Bool
  | .single p => refHasMatch cands p
  | .multiple ps => ps.all (refHasMatch cands)

/-- `allPredecessorsFound` as a predicate of the row alone: every declared
reference in every role has a `(type, hash)` match in the row's own
candidate array. -/
def allFound (row : RawFactRow) : Bool :=
  row.predecessors.all (fun kv => valueFound row.predecessor_array kv.2)

/-- All references declared by a row, flattened across roles in order. -/
def refsOfDeclared : DeclaredValue → List PredecessorInformation
  | .single p => [p]
  | .multiple ps => ps

/-- All candidates held by a resolved role value, in order. -/
def refsOfResolved : ResolvedValue → List PredecessorInformationWithId
  | .single p => [p]
  | .multiple ps => ps

/-- The flattened declared references of a raw row. -/
def declaredRefs (row : RawFactRow) : List PredecessorInformation :=
  row.predecessors.flatMap (fun kv => refsOfDeclared kv.2)

/-! ### Character-level output

JS strings are modelled as `List Char`; `s.data` converts a Lean string
literal. -/

/-- The characters of a string literal. -/
def jsStr (s : String) : List Char := s.data

/-- Decimal digits of a `Nat`, as in JS template interpolation of a number. -/
def natChars (n : Nat) : List Char := (Nat.repr n).data

/-- One lowercase hex digit. -/
def hexDigit (n : Nat) : Char :=
  if n < 10 then Char.ofNat (48 + n) else Char.ofNat (87 + n)

/-- `JSON.stringify` escaping of one character inside a string literal. -/
def escapeChar (c : Char) : List Char :=
  if c = '"' then ['\\', '"']
  else if c = '\\' then ['\\', '\\']
  else if c = '\x08' then ['\\', 'b']
  else if c = '\t' then ['\\', 't']
  else if c = '\n' then ['\\', 'n']
  else if c = '\x0c' then ['\\', 'f']
  else if c = '\r' then ['\\', 'r']
  else if c.toNat < 32 then
    ['\\', 'u', '0', '0', hexDigit (c.toNat / 16), hexDigit (c.toNat % 16)]
  else [c]

/-- `JSON.stringify` of a string: quoted and escaped. -/
def jsonQuote (s : String) : List Char :=
  '"' :: s.data.flatMap escapeChar ++ ['"']

/-- `JSON.stringify` of a scalar field value (numbers modelled as
integers). -/
def stringifyField : FieldValue → List Char
  | .str s => jsonQuote s
  | .num n => (toString n).data
  | .bool b => if b then jsStr "true" else jsStr "false"
  | .null => jsStr "null"

/-- `Array.prototype.join` / separator interposition: no separator before
the first or after the last element. -/
def joinSep {α : Type} (sep : List α) : List (List α) → List α
  | [] => []
  | [e] => e
  | e :: e2 :: es => e ++ sep ++ joinSep sep (e2 :: es)

/-- `output.slice(0, -2)`: remove the last two characters. -/
def dropLastTwo {α : Type} (l : List α) : List α := l.take (l.length - 2)

/-- The `let f<id>: <type>` declaration that opens a factual block. -/
def declChars (id : Nat) (type : String) : List Char :=
  jsStr "let f" ++ natChars id ++ jsStr ": " ++ type.data

/-- One field line body `    <key>: <json-literal>` (the code appends
`,\n` to it). -/
def fieldEntryChars (kv : String × FieldValue) : List Char :=
  jsStr "    " ++ kv.1.data ++ jsStr ": " ++ stringifyField kv.2

/-- One predecessor line body: `    <key>: f<id>` or
`    <key>: [f<id1>, f<id2>, ...]`. -/
def predEntryChars (kv : String × ResolvedValue) : List Char :=
  match kv.2 with
  | .single p => jsStr "    " ++ kv.1.data ++ jsStr ": f" ++ natChars p.fact_id
  | .multiple ps =>
    jsStr "    " ++ kv.1.data ++ jsStr ": [" ++
      joinSep (jsStr ", ") (ps.map (fun p => 'f' :: natChars p.fact_id)) ++ jsStr "]"

/-- Entry line bodies of a block: field entries first, then predecessor
entries, each group in declaration order. -/
def factualEntries (fact : FactInformationWithId) : List (List Char) :=
  fact.fields.map fieldEntryChars ++ fact.predecessors.map predEntryChars

/-- `writeFactual`: build the header and the `,\n`-terminated entry lines,
remove the trailing two characters, and close with `\n}\n\n`. -/
def writeFactual (fact : FactInformationWithId) : List Char :=
  dropLastTwo
    (declChars fact.fact_id fact.type ++ jsStr " = \x7b\n" ++
      ((factualEntries fact).map (fun e => e ++ jsStr ",\n")).flatten) ++
  jsStr "\n\x7d\n\n"

/-- The block format stated by the spec: fields before predecessors in
declaration order, entries separated (not terminated) by `,\n`, block
closed by `}` and a blank line. When there is no entry at all the code's
`slice(0, -2)` removes the opening `{` and its newline instead of a
separator, so the degenerate block is `let f<id>: <type> = ` followed
directly by the closing `\n}\n\n`. -/
def canonicalBlock (fact : FactInformationWithId) : List Char :=
  if factualEntries fact = [] then
    declChars fact.fact_id fact.type ++ jsStr " = " ++ jsStr "\n\x7d\n\n"
  else
    declChars fact.fact_id fact.type ++ jsStr " = \x7b\n" ++
      joinSep (jsStr ",\n") (factualEntries fact) ++ jsStr "\n\x7d\n\n"

/-! ### JSON tree for the `json` output format -/

/-- A JSON value. -/
inductive Json where
  | null
  | bool (b : Bool)
  | num (n : Int)
  | str (s : String)
  | arr (elements : List Json)
  | obj (entries : List (String × Json))
deriving Repr

/-- A scalar field value as JSON. -/
def fieldToJson : FieldValue → Json
  | .str s => .str s
  | .num n => .num n
  | .bool b => .bool b
  | .null => .null

/-- A stripped predecessor as the JSON object `{hash, type}`. -/
def sPredToJson (p : PredecessorInformation) : Json :=
  .obj [("hash", .str p.hash), ("type", .str p.type)]

/-- A stripped role value as JSON: one object or an array of objects. -/
def strippedValueToJson : DeclaredValue → Json
  | .single p => sPredToJson p
  | .multiple ps => .arr (ps.map sPredToJson)

/-- The JSON object `JSON.stringify` receives for one emitted fact: keys
`hash`, `type`, `fields`, `predecessors` in insertion order. -/
def factToJson (e : FactInformation) : Json :=
  .obj [("hash", .str e.hash), ("type", .str e.type),
        ("fields", .obj (e.fields.map (fun kv => (kv.1, fieldToJson kv.2)))),
        ("predecessors", .obj (e.predecessors.map (fun kv => (kv.1, strippedValueToJson kv.2))))]

mutual

/-- Serialize a JSON value to characters. -/
def renderJson : Json → List Char
  | .null => jsStr "null"
  | .bool b => if b then jsStr "true" else jsStr "false"
  | .num n => (toString n).data
  | .str s => jsonQuote s
  | .arr xs => '[' :: joinSep [','] (renderJsonList xs) ++ [']']
  | .obj kvs => '\x7b' :: joinSep [','] (renderJsonPairs kvs) ++ ['\x7d']

/-- Serialize each element of a JSON array. -/
def renderJsonList : List Json → List (List Char)
  | [] => []
  | x :: xs => renderJson x :: renderJsonList xs

/-- Serialize each `"key":value` pair of a JSON object. -/
def renderJsonPairs : List (String × Json) → List (List Char)
  | [] => []
  | (k, v) :: kvs => (jsonQuote k ++ ':' :: renderJson v) :: renderJsonPairs kvs

end

/-- The top-level keys of a JSON object (`[]` for non-objects). -/
def topKeys : Json → List String
  | .obj kvs => kvs.map Prod.fst
  | _ => []

/-- Does a JSON value look like one rendered predecessor entry: an object
with exactly the keys `hash` and `type`? -/
def predEntryKeysOk : Json → Bool
  | .obj kvs => kvs.map Prod.fst == ["hash", "type"]
  | _ => false

/-- Is a rendered predecessor role value well-shaped: a single entry or an
array all of whose elements are entries with exactly keys `hash`, `type`? -/
def predValKeysOk : Json → Bool
  | .arr xs => xs.all predEntryKeysOk
  | j => predEntryKeysOk j

/-! ### The streaming pipeline -/

/-- The cursor loop of `streamFacts`, which reads batches of
`batchSize = n + 1` rows until the source is exhausted, resolving each row
of a batch in order and emitting the mapped successes. The `n + 1` encoding
caps nothing: every positive batch size is `n + 1` for some `n`, and the
reference code uses `1000 = 999 + 1`. -/
def runExport {T : Type} (f : RawFactRow → Option T) (n : Nat) :
    List RawFactRow → List T
  | [] => []
  | r :: rest =>
    ((r :: rest.take n).filterMap f) ++ runExport f n (rest.drop n)
  termination_by rows => rows.length
  decreasing_by simp [List.length_drop]; omega

/-- The resolved facts of a row sequence, in source order. -/
def resolvedFacts (rows : List RawFactRow) : List FactInformationWithId :=
  rows.filterMap resolveRow

/-- The elements of the `json` (PlainGraph) output, at the reference batch
size of 1000. -/
def exportJsonElems (rows : List RawFactRow) : List FactInformation :=
  runExport (fun r => (resolveRow r).map stripIdFromFact) 999 rows

/-- The blocks of the `factual` (DeclarativeText) output, at the reference
batch size of 1000. -/
def factualBlocks (rows : List RawFactRow) : List (List Char) :=
  runExport (fun r => (resolveRow r).map writeFactual) 999 rows

/-- `JSONStream.stringify('[', ',', ']')` applied to a list of rendered
elements. -/
def renderJsonArray (elems : List Json) : List Char :=
  '[' :: joinSep [','] (elems.map renderJson) ++ [']']

/-- The rendered `json` output at batch size `n + 1`. -/
def jsonRendered (n : Nat) (rows : List RawFactRow) : List Char :=
  renderJsonArray
    ((runExport (fun r => (resolveRow r).map stripIdFromFact) n rows).map factToJson)

/-- The rendered `factual` output at batch size `n + 1`. -/
def factualRendered (n : Nat) (rows : List RawFactRow) : List Char :=
  (runExport (fun r => (resolveRow r).map writeFactual) n rows).flatten

/-! ### The `Readable.read` driver with its failure paths

`drive` models the `read()` callback loop: each element of `batches` is the
outcome of one `cursor.read(batchSize)` call. On an empty batch the code
pushes `null` and closes the cursor; on a read (or formatter) exception the
`catch` branch calls `this.destroy(error)` — and nothing else. -/

/-- How a run of the driver ended. -/
inductive DriveMode where
  | closedOk
  | errored
  | exhausted
deriving DecidableEq, Repr

/-- Observable outcome of a driver run: emitted values, whether
`cursor.close()` was ever called, and the terminal mode. -/
structure DriveResult (T : Type) where
  emitted : List T
  cursorClosed : Bool
  mode : DriveMode

/-- Process the rows of one batch in order: resolve, drop failures, map
successes through the (possibly failing) formatter; a formatter failure
aborts the batch after the rows already pushed. -/
def processRows {T : Type} (f : FactInformationWithId → Except String T) :
    List RawFactRow → List T × Option String
  | [] => ([], none)
  | r :: rs =>
    match resolveRow r with
    | none => processRows f rs
    | some fct =>
      match f fct with
      | .error e => ([], some e)
      | .ok t =>
        let res := processRows f rs
        (t :: res.1, res.2)

/-- The driver: consume batch outcomes until an empty batch (success), a
read failure, or a formatter failure. -/
def drive {T : Type} (f : FactInformationWithId → Except String T) :
    List (Except String (List RawFactRow)) → DriveResult T
  | [] => ⟨[], false, .exhausted⟩
  | .error _ :: _ => ⟨[], false, .errored⟩
  | .ok [] :: _ => ⟨[], true, .closedOk⟩
  | .ok (r :: rs) :: rest =>
    match processRows f (r :: rs) with
    | (ts, some _) => ⟨ts, false, .errored⟩
    | (ts, none) =>
      let res := drive f rest
      ⟨ts ++ res.emitted, res.cursorClosed, res.mode⟩

/-! ### The SQL query of `streamFacts`

The `fact` table (already joined with `fact_type` for the type name) and
the `edge` table, and the row construction of the `SELECT`: the
`aggregated_predecessors` CTE groups the edge-joined predecessors by
successor, and the main query `LEFT JOIN`s it with
`COALESCE(ap.predecessor_array, '{}'::jsonb)`, so a fact with no incoming
aggregation still yields a row, with an empty candidate array. -/

/-- One row of `fact JOIN fact_type`. -/
structure DbFact where
  fact_id : Nat
  hash : String
  type : String
  fields : List (String × FieldValue)
  predecessors : List (String × DeclaredValue)
deriving DecidableEq, Repr

/-- One row of `edge`. -/
structure DbEdge where
  predecessor_fact_id : Nat
  successor_fact_id : Nat
deriving DecidableEq, Repr

/-- The aggregated candidate array for one successor: for each edge into
it, the joined predecessor fact's `{hash, type, fact_id}`. -/
def candidatesFor (facts : List DbFact) (edges : List DbEdge) (fid : Nat) :
    List PredecessorInformationWithId :=
  (edges.filter (fun e => e.successor_fact_id == fid)).flatMap (fun e =>
    (facts.filter (fun p => p.fact_id == e.predecessor_fact_id)).map (fun p =>
      { hash := p.hash, type := p.type, fact_id := p.fact_id }))

/-- The rows of the `streamFacts` query: one per fact (the `LEFT JOIN`
keeps facts without candidates). The `COALESCE` fallback `'\x7b\x7d'::jsonb`
is an empty jsonb *object*, not an array; this abstraction renders it as
the empty candidate list, which is observationally faithful exactly for
rows that never consult the aggregate (no declared reference, as in the
root-fact claim) — `sqlWire`/`buildWireRows` below model the delivered
shape exactly, including the thrown `TypeError` when a row with declared
references meets the object fallback. -/
def buildRows (facts : List DbFact) (edges : List DbEdge) : List RawFactRow :=
  facts.map (fun f =>
    { fact_id := f.fact_id, hash := f.hash, type := f.type
      fields := f.fields, predecessors := f.predecessors
      predecessor_array := candidatesFor facts edges f.fact_id })

/-! ### Source-order invariant (spec §3) -/

/-- Does a row's own identity match a declared reference? -/
def matchRef (q : RawFactRow) (p : PredecessorInformation) : Bool :=
  q.type == p.type && q.hash == p.hash

/-- The documented source-order invariant: every declared predecessor
reference of a row has a matching row somewhere in the sequence, and every
row matching a reference declared by row `j` sits strictly before `j`. -/
def sourceOrderInv (rows : List RawFactRow) : Bool :=
  (List.range rows.length).all (fun j =>
    (rows.get? j).elim true (fun r =>
      (declaredRefs r).all (fun p =>
        ((List.range rows.length).any (fun i =>
          decide (i < j) && ((rows.get? i).elim false (fun q => matchRef q p)))) &&
        ((List.range rows.length).all (fun i =>
          (rows.get? i).elim true (fun q => !(matchRef q p) || decide (i < j)))))))

/-! ### The delivered (wire) shape of the candidate aggregate

`COALESCE(ap.predecessor_array, '\x7b\x7d'::jsonb)` yields the `jsonb_agg`
JSON *array* when at least one predecessor row was aggregated, and the
empty jsonb *object* otherwise. The pg driver parses the object to a plain
JS object, which has no `.find` method: on such a row the first
`findPredecessor` call throws a `TypeError`, the `catch` destroys the
stream, and the export fails. The wire layer models this exactly. -/

/-- The coalesced candidate aggregate as the query delivers it. -/
inductive CandidateAggregate where
  | agg (cands : List PredecessorInformationWithId)
  | emptyObject
deriving DecidableEq, Repr

/-- A raw row with the candidate aggregate in its delivered shape. -/
structure WireFactRow where
  fact_id : Nat
  hash : String
  type : String
  fields : List (String × FieldValue)
  predecessors : List (String × DeclaredValue)
  predecessor_array : CandidateAggregate
deriving DecidableEq, Repr

/-- The candidate set an aggregate carries (`[]` for the object fallback,
which matches nothing — though in the code it is never searched: it
throws first). -/
def candsOfAggregate : CandidateAggregate → List PredecessorInformationWithId
  | .agg cands => cands
  | .emptyObject => []

/-- `predecessorArray.find(...)` on the delivered aggregate: a genuine
array searches normally; the `'\x7b\x7d'` object fallback throws. -/
def findPredecessorWire : CandidateAggregate → PredecessorInformation →
    Except String (Option PredecessorInformationWithId)
  | .agg cands, p => .ok (findPredecessor cands p)
  | .emptyObject, _ => .error "TypeError: predecessorArray.find is not a function"

/-- The multi-valued role loop over the delivered aggregate: a thrown
lookup aborts with the error, a miss breaks with a silent failure. -/
def resolveRefsWire (agg : CandidateAggregate) :
    List PredecessorInformation →
      Except String (Option (List PredecessorInformationWithId))
  | [] => .ok (some [])
  | p :: ps =>
    match findPredecessorWire agg p with
    | .error e => .error e
    | .ok none => .ok none
    | .ok (some c) =>
      match resolveRefsWire agg ps with
      | .error e => .error e
      | .ok none => .ok none
      | .ok (some cs) => .ok (some (c :: cs))

/-- One role value over the delivered aggregate. A `multiple []` role
performs no lookup at all, so it succeeds even on the object fallback. -/
def resolveValueWire (agg : CandidateAggregate) :
    DeclaredValue → Except String (Option ResolvedValue)
  | .single p =>
    match findPredecessorWire agg p with
    | .error e => .error e
    | .ok none => .ok none
    | .ok (some c) => .ok (some (.single c))
  | .multiple ps =>
    match resolveRefsWire agg ps with
    | .error e => .error e
    | .ok none => .ok none
    | .ok (some cs) => .ok (some (.multiple cs))

/-- The role loop over the delivered aggregate. -/
def resolveAllWire (agg : CandidateAggregate) :
    List (String × DeclaredValue) →
      Except String (Option (List (String × ResolvedValue)))
  | [] => .ok (some [])
  | (k, v) :: rest =>
    match resolveValueWire agg v with
    | .error e => .error e
    | .ok none => .ok none
    | .ok (some r) =>
      match resolveAllWire agg rest with
      | .error e => .error e
      | .ok none => .ok none
      | .ok (some rs) => .ok (some ((k, r) :: rs))

/-- Processing one delivered row: `.error` is a thrown `TypeError`
(destroys the stream), `.ok none` is the silent drop, `.ok (some f)` is an
emitted resolved fact. -/
def resolveRowWire (row : WireFactRow) : Except String (Option FactInformationWithId) :=
  match resolveAllWire row.predecessor_array row.predecessors with
  | .error e => .error e
  | .ok none => .ok none
  | .ok (some preds) =>
    .ok (some { fact_id := row.fact_id, hash := row.hash, type := row.type
                predecessors := preds, fields := row.fields })

/-- The flattened declared references of a delivered row. -/
def declaredRefsW (row : WireFactRow) : List PredecessorInformation :=
  row.predecessors.flatMap (fun kv => refsOfDeclared kv.2)

/-- Is an abstract row's shape one the query can deliver as a genuine
JSON array (or one whose aggregate is never consulted)? `jsonb_agg` never
produces an empty array, so an abstract row with an empty candidate list
and at least one declared reference corresponds to no throwing-free run
of the code. -/
def arrayDelivered (r : RawFactRow) : Bool :=
  !r.predecessor_array.isEmpty || (declaredRefs r).isEmpty

/-- The delivered shape of an abstract row: the `COALESCE` fallback
object stands wherever the aggregate is empty, a genuine array wherever
it is not. -/
def sqlWire (r : RawFactRow) : WireFactRow :=
  { fact_id := r.fact_id, hash := r.hash, type := r.type
    fields := r.fields, predecessors := r.predecessors
    predecessor_array :=
      if r.predecessor_array.isEmpty then .emptyObject
      else .agg r.predecessor_array }

/-- The rows of the `streamFacts` query in their exact delivered shape:
`'\x7b\x7d'::jsonb` for facts with no aggregated predecessor, the
`jsonb_agg` array otherwise. -/
def buildWireRows (facts : List DbFact) (edges : List DbEdge) : List WireFactRow :=
  (buildRows facts edges).map sqlWire

/-- One delivered batch: resolve each row in order; a thrown `TypeError`
or a formatter failure aborts the batch after the rows already pushed. -/
def processRowsWire {T : Type} (f : FactInformationWithId → Except String T) :
    List WireFactRow → List T × Option String
  | [] => ([], none)
  | r :: rs =>
    match resolveRowWire r with
    | .error e => ([], some e)
    | .ok none => processRowsWire f rs
    | .ok (some fct) =>
      match f fct with
      | .error e => ([], some e)
      | .ok t =>
        let res := processRowsWire f rs
        (t :: res.1, res.2)

/-- The `Readable.read` driver over delivered rows: a thrown resolution
`TypeError` reaches the same `catch` → `destroy` path as a read failure. -/
def driveWire {T : Type} (f : FactInformationWithId → Except String T) :
    List (Except String (List WireFactRow)) → DriveResult T
  | [] => ⟨[], false, .exhausted⟩
  | .error _ :: _ => ⟨[], false, .errored⟩
  | .ok [] :: _ => ⟨[], true, .closedOk⟩
  | .ok (r :: rs) :: rest =>
    match processRowsWire f (r :: rs) with
    | (ts, some _) => ⟨ts, false, .errored⟩
    | (ts, none) =>
      let res := driveWire f rest
      ⟨ts ++ res.emitted, res.cursorClosed, res.mode⟩

/-! ### Basic lemmas about resolution -/

/-- A found candidate is a member with equal `(type, hash)`. -/
theorem findPredecessor_spec {cands : List PredecessorInformationWithId}
    {p : PredecessorInformation} {c : PredecessorInformationWithId}
    (h : findPredecessor cands p = some c) :
    c ∈ cands ∧ c.type = p.type ∧ c.hash = p.hash := by
  have hmem := List.mem_of_find?_eq_some h
  have hp := List.find?_some h
  simp only [Bool.and_eq_true, beq_iff_eq] at hp
  exact ⟨hmem, hp.1, hp.2⟩

/-- A reference with a match is found. -/
theorem findPredecessor_total {cands : List PredecessorInformationWithId}
    {p : PredecessorInformation} (h : refHasMatch cands p = true) :
    ∃ c, findPredecessor cands p = some c := by
  simp only [refHasMatch, List.any_eq_true] at h
  have : (findPredecessor cands p).isSome = true := List.find?_isSome.mpr h
  exact Option.isSome_iff_exists.mp this

/-- A reference without a match is not found. -/
theorem findPredecessor_fails {cands : List PredecessorInformationWithId}
    {p : PredecessorInformation} (h : refHasMatch cands p = false) :
    findPredecessor cands p = none := by
  apply List.find?_eq_none.mpr
  intro x hx
  simp only [refHasMatch] at h
  exact (List.any_eq_false.mp h) x hx

/-- `refMatches cands p c`: the candidate `c` is the one `findPredecessor`
substitutes for the declared reference `p`: a member of the candidate
array, equal to `p` on `(type, hash)`, and the lookup's result. -/
def refMatches (cands : List PredecessorInformationWithId)
    (p : PredecessorInformation) (c : PredecessorInformationWithId) : Prop :=
  c ∈ cands ∧ c.type = p.type ∧ c.hash = p.hash ∧ findPredecessor cands p = some c

/-- A resolved role value mirrors the declared one: same cardinality, and
element-wise (order-preserving) candidate substitution. -/
def valueMatches (cands : List PredecessorInformationWithId) :
    DeclaredValue → ResolvedValue → Prop
  | .single p, .single c => refMatches cands p c
  | .multiple ps, .multiple cs => List.Forall₂ (refMatches cands) ps cs
  | _, _ => False

/-- A resolved role entry keeps its role name and mirrors its value. -/
def entryMatches (cands : List PredecessorInformationWithId)
    (d : String × DeclaredValue) (r : String × ResolvedValue) : Prop :=
  d.1 = r.1 ∧ valueMatches cands d.2 r.2

theorem resolveRefs_sound {cands : List PredecessorInformationWithId} :
    ∀ {ps : List PredecessorInformation} {cs : List PredecessorInformationWithId},
      resolveRefs cands ps = some cs → List.Forall₂ (refMatches cands) ps cs := by
  intro ps
  induction ps with
  | nil =>
    intro cs h
    simp only [resolveRefs, Option.some.injEq] at h
    subst h
    exact .nil
  | cons p ps ih =>
    intro cs h
    simp only [resolveRefs] at h
    cases hf : findPredecessor cands p with
    | none => rw [hf] at h; exact absurd h (by simp)
    | some c =>
      rw [hf] at h
      cases hr : resolveRefs cands ps with
      | none => rw [hr] at h; exact absurd h (by simp)
      | some cs' =>
        rw [hr] at h
        simp only [Option.map_some', Option.some.injEq] at h
        subst h
        have hc := findPredecessor_spec hf
        exact .cons ⟨hc.1, hc.2.1, hc.2.2, hf⟩ (ih hr)

theorem resolveValue_sound {cands : List PredecessorInformationWithId}
    {v : DeclaredValue} {rv : ResolvedValue}
    (h : resolveValue cands v = some rv) : valueMatches cands v rv := by
  cases v with
  | single p =>
    simp only [resolveValue] at h
    cases hf : findPredecessor cands p with
    | none => rw [hf] at h; exact absurd h (by simp)
    | some c =>
      rw [hf] at h
      simp only [Option.map_some', Option.some.injEq] at h
      subst h
      have hc := findPredecessor_spec hf
      exact ⟨hc.1, hc.2.1, hc.2.2, hf⟩
  | multiple ps =>
    simp only [resolveValue] at h
    cases hr : resolveRefs cands ps with
    | none => rw [hr] at h; exact absurd h (by simp)
    | some cs =>
      rw [hr] at h
      simp only [Option.map_some', Option.some.injEq] at h
      subst h
      exact resolveRefs_sound hr

theorem resolveAll_sound {cands : List PredecessorInformationWithId} :
    ∀ {ds : List (String × DeclaredValue)} {rs : List (String × ResolvedValue)},
      resolveAll cands ds = some rs → List.Forall₂ (entryMatches cands) ds rs := by
  intro ds
  induction ds with
  | nil =>
    intro rs h
    simp only [resolveAll, Option.some.injEq] at h
    subst h
    exact .nil
  | cons d ds ih =>
    intro rs h
    obtain ⟨k, v⟩ := d
    simp only [resolveAll] at h
    cases hv : resolveValue cands v with
    | none => rw [hv] at h; exact absurd h (by simp)
    | some rv =>
      rw [hv] at h
      cases hr : resolveAll cands ds with
      | none => rw [hr] at h; exact absurd h (by simp)
      | some rs' =>
        rw [hr] at h
        simp only [Option.map_some', Option.some.injEq] at h
        subst h
        exact .cons ⟨rfl, resolveValue_sound hv⟩ (ih hr)

theorem resolveRefs_total {cands : List PredecessorInformationWithId} :
    ∀ {ps : List PredecessorInformation}, ps.all (refHasMatch cands) = true →
      ∃ cs, resolveRefs cands ps = some cs := by
  intro ps
  induction ps with
  | nil => intro _; exact ⟨[], rfl⟩
  | cons p ps ih =>
    intro h
    simp only [List.all_cons, Bool.and_eq_true] at h
    obtain ⟨c, hc⟩ := findPredecessor_total h.1
    obtain ⟨cs, hcs⟩ := ih h.2
    exact ⟨c :: cs, by simp [resolveRefs, hc, hcs]⟩

theorem resolveValue_total {cands : List PredecessorInformationWithId}
    {v : DeclaredValue} (h : valueFound cands v = true) :
    ∃ rv, resolveValue cands v = some rv := by
  cases v with
  | single p =>
    obtain ⟨c, hc⟩ := findPredecessor_total h
    exact ⟨.single c, by simp [resolveValue, hc]⟩
  | multiple ps =>
    obtain ⟨cs, hcs⟩ := resolveRefs_total h
    exact ⟨.multiple cs, by simp [resolveValue, hcs]⟩

theorem resolveAll_total {cands : List PredecessorInformationWithId} :
    ∀ {ds : List (String × DeclaredValue)},
      ds.all (fun kv => valueFound cands kv.2) = true →
      ∃ rs, resolveAll cands ds = some rs := by
  intro ds
  induction ds with
  | nil => intro _; exact ⟨[], rfl⟩
  | cons d ds ih =>
    intro h
    simp only [List.all_cons, Bool.and_eq_true] at h
    obtain ⟨rv, hrv⟩ := resolveValue_total h.1
    obtain ⟨rs, hrs⟩ := ih h.2
    exact ⟨(d.1, rv) :: rs, by simp [resolveAll, hrv, hrs]⟩

theorem resolveValue_fails {cands : List PredecessorInformationWithId}
    {v : DeclaredValue} (h : valueFound cands v = false) :
    resolveValue cands v = none := by
  cases v with
  | single p => simp [resolveValue, findPredecessor_fails h]
  | multiple ps =>
    simp only [valueFound, List.all_eq_false] at h
    obtain ⟨p, hp, hfail⟩ := h
    suffices hps : resolveRefs cands ps = none by simp [resolveValue, hps]
    induction ps with
    | nil => cases hp
    | cons q qs ih =>
      rcases List.mem_cons.mp hp with hq | hq
      · subst hq
        simp [resolveRefs, findPredecessor_fails (Bool.eq_false_iff.mpr hfail)]
      · cases hf : findPredecessor cands q with
        | none => simp [resolveRefs, hf]
        | some c => simp [resolveRefs, hf, ih hq]

theorem resolveAll_fails {cands : List PredecessorInformationWithId}
    {kv : String × DeclaredValue} (hfail : valueFound cands kv.2 = false) :
    ∀ {ds : List (String × DeclaredValue)}, kv ∈ ds → resolveAll cands ds = none := by
  intro ds
  induction ds with
  | nil => intro h; cases h
  | cons d ds ih =>
    intro hkv
    rcases List.mem_cons.mp hkv with hd | hd
    · subst hd
      obtain ⟨k, v⟩ := kv
      simp [resolveAll, resolveValue_fails hfail]
    · obtain ⟨k, v⟩ := d
      cases hv : resolveValue cands v with
      | none => simp [resolveAll, hv]
      | some rv => simp [resolveAll, hv, ih hd]

theorem resolveRow_fails {row : RawFactRow} (h : allFound row = false) :
    resolveRow row = none := by
  simp only [allFound, List.all_eq_false] at h
  obtain ⟨kv, hkv, hfail⟩ := h
  have hall := resolveAll_fails (Bool.eq_false_iff.mpr hfail) hkv
  simp [resolveRow, hall]

theorem resolveRow_eq_some {row : RawFactRow} {F : FactInformationWithId}
    (h : resolveRow row = some F) :
    F.fact_id = row.fact_id ∧ F.hash = row.hash ∧ F.type = row.type ∧
      F.fields = row.fields ∧
      List.Forall₂ (entryMatches row.predecessor_array) row.predecessors F.predecessors := by
  simp only [resolveRow] at h
  cases hr : resolveAll row.predecessor_array row.predecessors with
  | none => rw [hr] at h; exact absurd h (by simp)
  | some rs =>
    rw [hr] at h
    simp only [Option.map_some', Option.some.injEq] at h
    subst h
    exact ⟨rfl, rfl, rfl, rfl, resolveAll_sound hr⟩

/-! ### Pipeline lemmas -/

/-- The batch loop emits exactly the in-order resolved rows: batching is
invisible in the output. -/
theorem runExport_eq_filterMap {T : Type} (f : RawFactRow → Option T) (n : Nat) :
    ∀ rows : List RawFactRow, runExport f n rows = rows.filterMap f := by
  have key : ∀ (k : Nat) (rows : List RawFactRow), rows.length ≤ k →
      runExport f n rows = rows.filterMap f := by
    intro k
    induction k with
    | zero =>
      intro rows h
      rw [Nat.le_zero, List.length_eq_zero] at h
      subst h
      simp [runExport]
    | succ k ih =>
      intro rows h
      match rows with
      | [] => simp [runExport]
      | r :: rest =>
        rw [runExport, ih (rest.drop n)
          (by simp only [List.length_drop, List.length_cons] at *; omega)]
        rw [← List.filterMap_append]
        congr 1
        simp [List.take_append_drop]
  intro rows
  exact key rows.length rows le_rfl

/-- A batch of a total formatter never reports an error, and pushes
exactly the resolved rows in order. -/
theorem processRows_total {T : Type} (g : FactInformationWithId → T) :
    ∀ rows : List RawFactRow,
      processRows (fun fct => Except.ok (g fct)) rows =
        (rows.filterMap (fun r => (resolveRow r).map g), none) := by
  intro rows
  induction rows with
  | nil => rfl
  | cons r rs ih =>
    cases hr : resolveRow r with
    | none => simp [processRows, hr, ih]
    | some fct => simp [processRows, hr, ih]

/-- A two-batch run with a total formatter: the rows, then the empty batch
that closes the cursor. -/
theorem drive_total {T : Type} (g : FactInformationWithId → T)
    (rows : List RawFactRow) :
    drive (fun fct => Except.ok (g fct)) [Except.ok rows, Except.ok []] =
      ⟨rows.filterMap (fun r => (resolveRow r).map g), true, .closedOk⟩ := by
  match rows with
  | [] => simp [drive]
  | r :: rs =>
    rw [drive, processRows_total]
    simp [drive]

/-! ### Bridging the abstract rows to the delivered shape -/

/-- On a genuine array aggregate the delivered multi-role loop never
throws and agrees with the abstract one. -/
theorem resolveRefsWire_agg (cands : List PredecessorInformationWithId) :
    ∀ ps : List PredecessorInformation,
      resolveRefsWire (.agg cands) ps = Except.ok (resolveRefs cands ps) := by
  intro ps
  induction ps with
  | nil => rfl
  | cons p ps ih =>
    rw [resolveRefsWire, resolveRefs, findPredecessorWire]
    cases findPredecessor cands p with
    | none => rfl
    | some c =>
      rw [ih]
      cases resolveRefs cands ps with
      | none => rfl
      | some cs => rfl

/-- On a genuine array aggregate one delivered role agrees with the
abstract one. -/
theorem resolveValueWire_agg (cands : List PredecessorInformationWithId)
    (v : DeclaredValue) :
    resolveValueWire (.agg cands) v = Except.ok (resolveValue cands v) := by
  cases v with
  | single p =>
    rw [resolveValueWire, resolveValue, findPredecessorWire]
    cases findPredecessor cands p with
    | none => rfl
    | some c => rfl
  | multiple ps =>
    rw [resolveValueWire, resolveValue, resolveRefsWire_agg]
    cases resolveRefs cands ps with
    | none => rfl
    | some cs => rfl

/-- On a genuine array aggregate the delivered role loop agrees with the
abstract one. -/
theorem resolveAllWire_agg (cands : List PredecessorInformationWithId) :
    ∀ ds : List (String × DeclaredValue),
      resolveAllWire (.agg cands) ds = Except.ok (resolveAll cands ds) := by
  intro ds
  induction ds with
  | nil => rfl
  | cons d ds ih =>
    obtain ⟨k, v⟩ := d
    rw [resolveAllWire, resolveAll, resolveValueWire_agg]
    cases resolveValue cands v with
    | none => rfl
    | some r =>
      rw [ih]
      cases resolveAll cands ds with
      | none => rfl
      | some rs => rfl

/-- A row that declares no reference at all resolves identically under
any aggregate and any candidate list: the aggregate is never consulted. -/
theorem resolveAllWire_no_refs (agg : CandidateAggregate)
    (cands : List PredecessorInformationWithId) :
    ∀ ds : List (String × DeclaredValue),
      ds.flatMap (fun kv => refsOfDeclared kv.2) = [] →
      resolveAllWire agg ds = Except.ok (resolveAll cands ds) := by
  intro ds
  induction ds with
  | nil => intro _; rfl
  | cons d ds ih =>
    intro hd
    obtain ⟨k, v⟩ := d
    rw [List.flatMap_cons, List.append_eq_nil] at hd
    cases v with
    | single p => simp [refsOfDeclared] at hd
    | multiple ps =>
      have hps : ps = [] := by simpa [refsOfDeclared] using hd.1
      subst hps
      have hv : resolveValueWire agg (DeclaredValue.multiple []) =
          Except.ok (some (ResolvedValue.multiple [])) := by
        cases agg with
        | agg cands2 => rfl
        | emptyObject => rfl
      have hv2 : resolveValue cands (DeclaredValue.multiple []) =
          some (ResolvedValue.multiple []) := rfl
      rw [resolveAllWire, resolveAll, hv, hv2, ih hd.2]
      cases resolveAll cands ds with
      | none => rfl
      | some rs => rfl

/-- An abstract row the query can genuinely deliver processes on the wire
exactly as the abstract resolver says: no throw, same drop/emit outcome. -/
theorem resolveRowWire_sqlWire {r : RawFactRow} (h : arrayDelivered r = true) :
    resolveRowWire (sqlWire r) = Except.ok (resolveRow r) := by
  rw [resolveRowWire, resolveRow, sqlWire]
  by_cases hemp : r.predecessor_array.isEmpty
  · have hrefs : declaredRefs r = [] := by
      rw [arrayDelivered, hemp] at h
      simpa using h
    simp only [hemp, if_pos]
    rw [resolveAllWire_no_refs CandidateAggregate.emptyObject r.predecessor_array
      r.predecessors hrefs]
    cases resolveAll r.predecessor_array r.predecessors with
    | none => rfl
    | some rs => rfl
  · simp only [hemp, if_neg, Bool.false_eq_true, not_false_eq_true]
    rw [resolveAllWire_agg]
    cases resolveAll r.predecessor_array r.predecessors with
    | none => rfl
    | some rs => rfl

/-- A role list with at least one actual reference throws on the object
fallback: roles are scanned in order, empty multi-roles pass without a
lookup, and the first role holding a reference calls `.find` on a
non-array. -/
theorem resolveAllWire_emptyObject_throws :
    ∀ ds : List (String × DeclaredValue),
      ds.flatMap (fun kv => refsOfDeclared kv.2) ≠ [] →
      ∃ e, resolveAllWire CandidateAggregate.emptyObject ds = Except.error e := by
  intro ds
  induction ds with
  | nil => intro h; simp at h
  | cons d ds ih =>
    intro h
    obtain ⟨k, v⟩ := d
    cases v with
    | single p => exact ⟨"TypeError: predecessorArray.find is not a function", rfl⟩
    | multiple ps =>
      cases ps with
      | nil =>
        rw [List.flatMap_cons] at h
        simp only [refsOfDeclared, List.nil_append] at h
        obtain ⟨e, he⟩ := ih h
        refine ⟨e, ?_⟩
        have hv : resolveValueWire CandidateAggregate.emptyObject
            (DeclaredValue.multiple []) =
            Except.ok (some (ResolvedValue.multiple [])) := rfl
        rw [resolveAllWire, hv, he]
      | cons p ps2 =>
        exact ⟨"TypeError: predecessorArray.find is not a function", rfl⟩

/-- A delivered row whose aggregate is the object fallback and that
declares at least one actual reference throws a `TypeError`. -/
theorem resolveRowWire_throws {w : WireFactRow}
    (hagg : w.predecessor_array = CandidateAggregate.emptyObject)
    (hrefs : declaredRefsW w ≠ []) :
    ∃ e, resolveRowWire w = Except.error e := by
  rw [declaredRefsW] at hrefs
  obtain ⟨e, he⟩ := resolveAllWire_emptyObject_throws w.predecessors hrefs
  rw [resolveRowWire, hagg, he]
  exact ⟨e, rfl⟩

/-- A delivered batch of genuinely array-backed rows with a total
formatter never throws and pushes exactly the in-order resolved rows. -/
theorem processRowsWire_total {T : Type} (g : FactInformationWithId → T) :
    ∀ rows : List RawFactRow, rows.all arrayDelivered = true →
      processRowsWire (fun fct => Except.ok (g fct)) (rows.map sqlWire) =
        (rows.filterMap (fun r => (resolveRow r).map g), none) := by
  intro rows
  induction rows with
  | nil => intro _; rfl
  | cons r rs ih =>
    intro h
    simp only [List.all_cons, Bool.and_eq_true] at h
    rw [List.map_cons, processRowsWire, resolveRowWire_sqlWire h.1]
    cases hr : resolveRow r with
    | none => simp [ih h.2, List.filterMap_cons, hr]
    | some fct => simp [ih h.2, List.filterMap_cons, hr]

/-- A two-batch delivered run over genuinely array-backed rows with a
total formatter: everything resolves or drops, the empty batch closes the
cursor. -/
theorem driveWire_total {T : Type} (g : FactInformationWithId → T)
    (rows : List RawFactRow) (h : rows.all arrayDelivered = true) :
    driveWire (fun fct => Except.ok (g fct))
        [Except.ok (rows.map sqlWire), Except.ok []] =
      ⟨rows.filterMap (fun r => (resolveRow r).map g), true, .closedOk⟩ := by
  match rows with
  | [] => simp [driveWire]
  | r :: rs =>
    have hp := processRowsWire_total g (r :: rs) h
    rw [List.map_cons] at hp
    rw [List.map_cons, driveWire, hp]
    simp [driveWire]

/-! ### C1 -/

/-- C1: for every raw fact row in which every declared predecessor
reference has a `(factType, contentHash)` candidate in that row's candidate
array, resolution succeeds and the resolved record keeps the fact's
identity and fields unchanged and rebuilds the predecessor map with the
same roles in the same order, the same cardinality per role, the same
element order within multi-valued roles, each reference replaced by the
matching candidate (which carries its surrogate id). -/
theorem c1_resolution_correct (row : RawFactRow) (h : allFound row = true) :
    ∃ F, resolveRow row = some F ∧ F.fact_id = row.fact_id ∧ F.hash = row.hash ∧
      F.type = row.type ∧ F.fields = row.fields ∧
      List.Forall₂ (entryMatches row.predecessor_array)
        row.predecessors F.predecessors := by
  obtain ⟨rs, hrs⟩ := resolveAll_total (List.all_eq_true.mpr (List.all_eq_true.mp h))
  have hrow : resolveRow row =
      some ⟨row.fact_id, row.hash, row.type, rs, row.fields⟩ := by
    simp [resolveRow, hrs]
  have hprops := resolveRow_eq_some hrow
  exact ⟨_, hrow, hprops.1, hprops.2.1, hprops.2.2.1, hprops.2.2.2.1,
    hprops.2.2.2.2⟩

/-- Concrete row for the C1 witness: one single-valued and one multi-valued
role, every reference matched. -/
def c1row : RawFactRow :=
  { fact_id := 3, hash := "h3", type := "Title"
    fields := [("value", .str "Hello")]
    predecessors := [("post", .single ⟨"h2", "Post"⟩),
                     ("prior", .multiple [⟨"h1", "Title"⟩, ⟨"h0", "Title"⟩])]
    predecessor_array := [⟨"h2", "Post", 2⟩, ⟨"h1", "Title", 1⟩, ⟨"h0", "Title", 0⟩] }

theorem c1_witness :
    allFound c1row = true ∧
    ∃ F, resolveRow c1row = some F ∧ F.fact_id = c1row.fact_id ∧
      F.hash = c1row.hash ∧ F.type = c1row.type ∧ F.fields = c1row.fields ∧
      List.Forall₂ (entryMatches c1row.predecessor_array)
        c1row.predecessors F.predecessors :=
  ⟨by decide, c1_resolution_correct c1row (by decide)⟩

/-! ### C2 -/

/-- Delivered rows for the C2 counterexample: `c2wbad` has a declared
reference and no aggregated candidate, so the query delivers its
aggregate as the `'\x7b\x7d'::jsonb` object fallback — there is no
`(type, hash)` match in its (empty) candidate set, yet instead of a
silent drop the first lookup throws. -/
def c2wgood : WireFactRow :=
  { fact_id := 1, hash := "h1", type := "Site"
    fields := [("domain", .str "example.com")]
    predecessors := []
    predecessor_array := .emptyObject }

def c2wbad : WireFactRow :=
  { fact_id := 5, hash := "h5", type := "Post"
    fields := []
    predecessors := [("site", .single ⟨"missing", "Site"⟩)]
    predecessor_array := .emptyObject }

/-- C2 is false as stated: a row with an unresolvable declared reference
whose candidate aggregate arrives as the `COALESCE` object fallback does
not drop silently — `predecessorArray.find` throws a `TypeError`, the
`catch` destroys the stream, and the export ends errored (cursor still
open) after emitting only the rows before it, contradicting «no error is
raised and the export continues». -/
theorem c2_counterexample :
    refHasMatch (candsOfAggregate c2wbad.predecessor_array)
      ⟨"missing", "Site"⟩ = false ∧
    ("site", DeclaredValue.single ⟨"missing", "Site"⟩) ∈ c2wbad.predecessors ∧
    resolveRowWire c2wbad =
      Except.error "TypeError: predecessorArray.find is not a function" ∧
    (driveWire (fun fct => Except.ok (stripIdFromFact fct))
      [Except.ok [c2wgood, c2wbad], Except.ok []]).mode = DriveMode.errored ∧
    (driveWire (fun fct => Except.ok (stripIdFromFact fct))
      [Except.ok [c2wgood, c2wbad], Except.ok []]).cursorClosed = false ∧
    (driveWire (fun fct => Except.ok (stripIdFromFact fct))
      [Except.ok [c2wgood, c2wbad], Except.ok []]).emitted =
      [⟨"h1", "Site", [], [("domain", .str "example.com")]⟩] := by
  refine ⟨rfl, ?_, rfl, rfl, rfl, rfl⟩
  decide

/-- C2 amended: a row whose candidate aggregate is delivered as a genuine
`jsonb_agg` array and that has at least one declared reference with no
`(type, hash)` match is dropped silently — it is emitted in neither
format, a run over rows of deliverable shape still ends in the
cursor-closing success state, and every other row's resolution is as if
the dropped row were absent. A row with declared references whose
aggregate arrives as the `'\x7b\x7d'` object fallback instead throws, and
the export fails. -/
theorem c2_drop_property_amended (l1 l2 : List RawFactRow) (bad : RawFactRow)
    (h : allFound bad = false) (hbad : bad.predecessor_array ≠ [])
    (hothers : (l1 ++ l2).all arrayDelivered = true) :
    resolveRow bad = none ∧
    resolveRowWire (sqlWire bad) = Except.ok none ∧
    resolvedFacts (l1 ++ bad :: l2) = resolvedFacts (l1 ++ l2) ∧
    exportJsonElems (l1 ++ bad :: l2) = exportJsonElems (l1 ++ l2) ∧
    factualBlocks (l1 ++ bad :: l2) = factualBlocks (l1 ++ l2) ∧
    (driveWire (fun fct => Except.ok (stripIdFromFact fct))
      [Except.ok ((l1 ++ bad :: l2).map sqlWire), Except.ok []]).mode =
      DriveMode.closedOk ∧
    (driveWire (fun fct => Except.ok (stripIdFromFact fct))
        [Except.ok ((l1 ++ bad :: l2).map sqlWire), Except.ok []]).emitted =
      (driveWire (fun fct => Except.ok (stripIdFromFact fct))
        [Except.ok ((l1 ++ l2).map sqlWire), Except.ok []]).emitted ∧
    (∀ w : WireFactRow, w.predecessor_array = CandidateAggregate.emptyObject →
      declaredRefsW w ≠ [] → ∃ e, resolveRowWire w = Except.error e) := by
  have hbadreal : arrayDelivered bad = true := by
    rw [arrayDelivered]
    simp [List.isEmpty_iff, hbad]
  have hall : (l1 ++ bad :: l2).all arrayDelivered = true := by
    rw [List.all_append] at hothers ⊢
    rw [Bool.and_eq_true] at hothers ⊢
    exact ⟨hothers.1, by simp [List.all_cons, hbadreal, hothers.2]⟩
  have hall2 : (l1 ++ l2).all arrayDelivered = true := hothers
  have hbadnone := resolveRow_fails h
  have hfm : ∀ {T : Type} (f : RawFactRow → Option T), (hf : f bad = none) →
      (l1 ++ bad :: l2).filterMap f = (l1 ++ l2).filterMap f := by
    intro T f hf
    simp [List.filterMap_append, List.filterMap_cons, hf]
  refine ⟨hbadnone, ?_, ?_, ?_, ?_, ?_, ?_, fun w hw hr => resolveRowWire_throws hw hr⟩
  · rw [resolveRowWire_sqlWire hbadreal, hbadnone]
  · exact hfm resolveRow hbadnone
  · simp only [exportJsonElems, runExport_eq_filterMap]
    exact hfm _ (by simp [hbadnone])
  · simp only [factualBlocks, runExport_eq_filterMap]
    exact hfm _ (by simp [hbadnone])
  · rw [driveWire_total stripIdFromFact (l1 ++ bad :: l2) hall]
  · rw [driveWire_total stripIdFromFact (l1 ++ bad :: l2) hall,
      driveWire_total stripIdFromFact (l1 ++ l2) hall2]
    exact hfm _ (by simp [hbadnone])

/-- Concrete data for the C2 witness: `c2bad` declares a reference with
no `(type, hash)` match in its genuinely delivered (non-empty) candidate
array. -/
def c2bad : RawFactRow :=
  { fact_id := 5, hash := "h5", type := "Post"
    fields := []
    predecessors := [("site", .single ⟨"missing", "Site"⟩)]
    predecessor_array := [⟨"h1", "Site", 1⟩] }

def c2good : RawFactRow :=
  { fact_id := 1, hash := "h1", type := "Site"
    fields := [("domain", .str "example.com")]
    predecessors := []
    predecessor_array := [] }

theorem c2_witness :
    (allFound c2bad = false ∧ c2bad.predecessor_array ≠ [] ∧
      ([c2good] ++ [c2good]).all arrayDelivered = true) ∧
    (resolveRow c2bad = none ∧
    resolveRowWire (sqlWire c2bad) = Except.ok none ∧
    resolvedFacts ([c2good] ++ c2bad :: [c2good]) =
      resolvedFacts ([c2good] ++ [c2good]) ∧
    exportJsonElems ([c2good] ++ c2bad :: [c2good]) =
      exportJsonElems ([c2good] ++ [c2good]) ∧
    factualBlocks ([c2good] ++ c2bad :: [c2good]) =
      factualBlocks ([c2good] ++ [c2good]) ∧
    (driveWire (fun fct => Except.ok (stripIdFromFact fct))
      [Except.ok (([c2good] ++ c2bad :: [c2good]).map sqlWire), Except.ok []]).mode =
      DriveMode.closedOk ∧
    (driveWire (fun fct => Except.ok (stripIdFromFact fct))
        [Except.ok (([c2good] ++ c2bad :: [c2good]).map sqlWire), Except.ok []]).emitted =
      (driveWire (fun fct => Except.ok (stripIdFromFact fct))
        [Except.ok (([c2good] ++ [c2good]).map sqlWire), Except.ok []]).emitted ∧
    (∀ w : WireFactRow, w.predecessor_array = CandidateAggregate.emptyObject →
      declaredRefsW w ≠ [] → ∃ e, resolveRowWire w = Except.error e)) :=
  ⟨⟨by decide, by decide, by decide⟩,
    c2_drop_property_amended [c2good] [c2good] c2bad (by decide) (by decide) (by decide)⟩

/-! ### C6 -/

/-- C6: the emitted sequence — and the rendered output in either format —
is the same for every positive batch size (`n + 1` and `m + 1` range over
all of them): resolution of a row depends only on the row itself, and
batching merely splits the same in-order traversal. -/
theorem c6_batch_size_independence (n m : Nat) (rows : List RawFactRow) :
    runExport (fun r => (resolveRow r).map stripIdFromFact) n rows =
      runExport (fun r => (resolveRow r).map stripIdFromFact) m rows ∧
    runExport (fun r => (resolveRow r).map writeFactual) n rows =
      runExport (fun r => (resolveRow r).map writeFactual) m rows ∧
    jsonRendered n rows = jsonRendered m rows ∧
    factualRendered n rows = factualRendered m rows := by
  refine ⟨?_, ?_, ?_, ?_⟩ <;>
    simp only [jsonRendered, factualRendered, runExport_eq_filterMap]

/-! ### C10 -/

/-- C10: `findPredecessor` deterministically selects the first
`(type, hash)` match in candidate-array order — it equals the head of the
filtered candidate list — and candidates earlier in the array take
priority over any later (duplicate) ones. Together with the fact that the
whole export is a pure function of the row sequence, two runs over the
same rows produce identical output. -/
theorem c10_first_occurrence (p : PredecessorInformation) :
    (∀ cands : List PredecessorInformationWithId,
      findPredecessor cands p =
        (cands.filter (fun pa => pa.type == p.type && pa.hash == p.hash)).head?) ∧
    (∀ cands dups : List PredecessorInformationWithId,
      findPredecessor (cands ++ dups) p =
        (findPredecessor cands p).or (findPredecessor dups p)) := by
  constructor
  · intro cands
    induction cands with
    | nil => rfl
    | cons c cs ih =>
      by_cases hc : (c.type == p.type && c.hash == p.hash) = true
      · simp [findPredecessor, List.find?_cons, hc, List.filter_cons]
      · simp only [Bool.not_eq_true] at hc
        simp only [findPredecessor, List.find?_cons, hc, List.filter_cons] at *
        exact ih
  · intro cands dups
    simp [findPredecessor, List.find?_append]

/-! ### C5 -/

theorem joinSep_of_map_append {α : Type} (sep : List α) :
    ∀ es : List (List α), es ≠ [] →
      (es.map (fun e => e ++ sep)).flatten = joinSep sep es ++ sep := by
  intro es
  induction es with
  | nil => intro h; cases h rfl
  | cons e es ih =>
    intro _
    cases es with
    | nil => simp [joinSep]
    | cons e2 es2 =>
      calc ((e :: e2 :: es2).map (fun x => x ++ sep)).flatten
          = e ++ sep ++ ((e2 :: es2).map (fun x => x ++ sep)).flatten := by simp
        _ = e ++ sep ++ (joinSep sep (e2 :: es2) ++ sep) := by rw [ih (by simp)]
        _ = joinSep sep (e :: e2 :: es2) ++ sep := by rw [joinSep]; simp

theorem dropLastTwo_append_two {α : Type} (l : List α) (a b : α) :
    dropLastTwo (l ++ [a, b]) = l := by
  simp only [dropLastTwo, List.length_append, List.length_cons, List.length_nil]
  have h2 : l.length + (1 + 1) - 2 = l.length := by omega
  rw [h2, List.take_left]

/-- C5: every `writeFactual` block has the canonical shape: the
`let f<id>: <type>` header, all field entries before all predecessor
entries with declaration order preserved inside each group, entries
separated (never terminated) by `,\n`, predecessor cross-references built
solely from `f<surrogate id>` labels, and a blank line terminating the
block — including the degenerate block of a fact with no fields and no
predecessors, where `slice(0, -2)` consumes the opening `{` and its
newline instead of a separator but the blank-line termination still
holds. -/
theorem c5_block_format (fact : FactInformationWithId) :
    writeFactual fact = canonicalBlock fact ∧
    ∃ s, writeFactual fact = s ++ ['\n', '\n'] := by
  have hsep : jsStr ",\n" = [',', '\n'] := rfl
  have hmain : writeFactual fact = canonicalBlock fact := by
    by_cases hes : factualEntries fact = []
    · rw [writeFactual, canonicalBlock, if_pos hes, hes]
      have hsplit : declChars fact.fact_id fact.type ++ jsStr " = \x7b\n" =
          (declChars fact.fact_id fact.type ++ jsStr " = ") ++ ['\x7b', '\n'] := by
        simp [jsStr]
      simp only [List.map_nil, List.flatten_nil, List.append_nil, hsplit,
        dropLastTwo_append_two]
    · rw [writeFactual, canonicalBlock, if_neg hes,
        joinSep_of_map_append (jsStr ",\n") (factualEntries fact) hes, hsep]
      have : declChars fact.fact_id fact.type ++ jsStr " = \x7b\n" ++
            (joinSep [',', '\n'] (factualEntries fact) ++ [',', '\n']) =
          (declChars fact.fact_id fact.type ++ jsStr " = \x7b\n" ++
            joinSep [',', '\n'] (factualEntries fact)) ++ [',', '\n'] := by
        simp
      rw [this, dropLastTwo_append_two]
  refine ⟨hmain, ?_⟩
  have hclose : jsStr "\n\x7d\n\n" = ['\n', '\x7d'] ++ ['\n', '\n'] := rfl
  refine ⟨dropLastTwo (declChars fact.fact_id fact.type ++ jsStr " = \x7b\n" ++
    ((factualEntries fact).map (fun e => e ++ jsStr ",\n")).flatten) ++
    ['\n', '\x7d'], ?_⟩
  rw [writeFactual, hclose]
  simp

/-! ### C4 -/

/-- C4: every element of the `json` (PlainGraph) output renders as a JSON
object whose keys are exactly `hash`, `type`, `predecessors`, `fields`
(no `fact_id` among them), and every predecessor entry — single or inside
an array — renders with exactly the keys `hash` and `type`. -/
theorem c4_no_surrogate_ids (rows : List RawFactRow) (e : FactInformation)
    (_he : e ∈ exportJsonElems rows) :
    ∃ fieldsJson predsKVs,
      factToJson e = Json.obj [("hash", Json.str e.hash), ("type", Json.str e.type),
        ("fields", fieldsJson), ("predecessors", Json.obj predsKVs)] ∧
      (topKeys (factToJson e)).Perm ["hash", "type", "predecessors", "fields"] ∧
      "fact_id" ∉ topKeys (factToJson e) ∧
      ∀ kv ∈ predsKVs, predValKeysOk kv.2 = true := by
  refine ⟨_, _, rfl, ?_, ?_, ?_⟩
  · show (["hash", "type", "fields", "predecessors"] : List String).Perm
      ["hash", "type", "predecessors", "fields"]
    decide
  · show "fact_id" ∉ (["hash", "type", "fields", "predecessors"] : List String)
    decide
  · intro kv hkv
    obtain ⟨kv0, _, rfl⟩ := List.mem_map.mp hkv
    cases hv : kv0.2 with
    | single p => simp [strippedValueToJson, predValKeysOk, predEntryKeysOk, sPredToJson]
    | multiple ps =>
      simp only [strippedValueToJson, predValKeysOk, List.all_eq_true]
      intro x hx
      obtain ⟨p, _, rfl⟩ := List.mem_map.mp hx
      simp [predEntryKeysOk, sPredToJson]

/-- Concrete row for the C4 witness. -/
def c4row : RawFactRow :=
  { fact_id := 2, hash := "h2", type := "Post"
    fields := [("createdAt", .str "2023-05-20")]
    predecessors := [("site", .single ⟨"h1", "Site"⟩),
                     ("tags", .multiple [⟨"h9", "Tag"⟩])]
    predecessor_array := [⟨"h1", "Site", 1⟩, ⟨"h9", "Tag", 9⟩] }

/-- The element `c4row` contributes to the PlainGraph output. -/
def c4elem : FactInformation :=
  { hash := "h2", type := "Post"
    predecessors := [("site", .single ⟨"h1", "Site"⟩),
                     ("tags", .multiple [⟨"h9", "Tag"⟩])]
    fields := [("createdAt", .str "2023-05-20")] }

theorem c4_witness :
    c4elem ∈ exportJsonElems [c4row] ∧
    ∃ fieldsJson predsKVs,
      factToJson c4elem = Json.obj [("hash", Json.str c4elem.hash),
        ("type", Json.str c4elem.type),
        ("fields", fieldsJson), ("predecessors", Json.obj predsKVs)] ∧
      (topKeys (factToJson c4elem)).Perm ["hash", "type", "predecessors", "fields"] ∧
      "fact_id" ∉ topKeys (factToJson c4elem) ∧
      ∀ kv ∈ predsKVs, predValKeysOk kv.2 = true := by
  have hm : c4elem ∈ exportJsonElems [c4row] := by
    unfold exportJsonElems
    rw [runExport_eq_filterMap]
    decide
  exact ⟨hm, c4_no_surrogate_ids [c4row] c4elem hm⟩

/-! ### C7 -/

/-- A fully matchable row resolves. -/
theorem resolveRow_total {row : RawFactRow} (h : allFound row = true) :
    ∃ F, resolveRow row = some F := by
  obtain ⟨rs, hrs⟩ := resolveAll_total (List.all_eq_true.mpr (List.all_eq_true.mp h))
  exact ⟨⟨row.fact_id, row.hash, row.type, rs, row.fields⟩, by simp [resolveRow, hrs]⟩

/-- Every `writeFactual` block opens with the `let f<id>: <type>`
declaration of its fact. -/
theorem writeFactual_header (f : FactInformationWithId) :
    ∃ rest, writeFactual f = declChars f.fact_id f.type ++ rest := by
  rw [writeFactual]
  set X := jsStr " = \x7b\n" ++
    ((factualEntries f).map (fun e => e ++ jsStr ",\n")).flatten with hX
  have hre : declChars f.fact_id f.type ++ jsStr " = \x7b\n" ++
      ((factualEntries f).map (fun e => e ++ jsStr ",\n")).flatten =
      declChars f.fact_id f.type ++ X := by
    rw [hX, List.append_assoc]
  rw [hre]
  refine ⟨dropLastTwo X ++ jsStr "\n\x7d\n\n", ?_⟩
  have hlen : X.length = 5 + ((factualEntries f).map (fun e => e ++ jsStr ",\n")).flatten.length := by
    rw [hX, List.length_append]
    rfl
  have h2 : dropLastTwo (declChars f.fact_id f.type ++ X) =
      declChars f.fact_id f.type ++ dropLastTwo X := by
    simp only [dropLastTwo, List.length_append]
    have hn : (declChars f.fact_id f.type).length + X.length - 2 =
        (declChars f.fact_id f.type).length + (X.length - 2) := by omega
    rw [hn, List.take_append]
  rw [h2, List.append_assoc]

/-- C7: on a dataset with no unresolvable reference, the PlainGraph
elements and the DeclarativeText blocks are positionally aligned images of
the same resolved-fact sequence: the `(hash, type)` pairs of the former
are the resolved facts' pairs, every block of the latter carries the
`let f<id>: <type>` declaration of its resolved fact, and nothing is
dropped — both formats emit exactly the same facts, with hashes and
surrogate ids in bijective correspondence through the shared sequence. -/
theorem c7_format_equivalence (rows : List RawFactRow)
    (h : rows.all allFound = true) :
    (exportJsonElems rows).map (fun e => (e.hash, e.type)) =
      (resolvedFacts rows).map (fun f => (f.hash, f.type)) ∧
    factualBlocks rows = (resolvedFacts rows).map writeFactual ∧
    (∀ f ∈ resolvedFacts rows, ∃ rest,
      writeFactual f = declChars f.fact_id f.type ++ rest) ∧
    (resolvedFacts rows).length = rows.length := by
  refine ⟨?_, ?_, fun f _ => writeFactual_header f, ?_⟩
  · unfold exportJsonElems resolvedFacts
    rw [runExport_eq_filterMap, ← List.map_filterMap, List.map_map]
    congr 1
  · unfold factualBlocks resolvedFacts
    rw [runExport_eq_filterMap, ← List.map_filterMap]
  · unfold resolvedFacts
    induction rows with
    | nil => rfl
    | cons r rs ih =>
      simp only [List.all_cons, Bool.and_eq_true] at h
      obtain ⟨F, hF⟩ := resolveRow_total h.1
      simp [List.filterMap_cons, hF, ih h.2]

/-- Concrete rows for the C7 witness. -/
def c7rows : List RawFactRow :=
  [{ fact_id := 1, hash := "h1", type := "Site"
     fields := [("domain", .str "example.com")]
     predecessors := []
     predecessor_array := [] },
   { fact_id := 2, hash := "h2", type := "Post"
     fields := [("createdAt", .str "2023-05-20")]
     predecessors := [("site", .single ⟨"h1", "Site"⟩)]
     predecessor_array := [⟨"h1", "Site", 1⟩] }]

theorem c7_witness :
    c7rows.all allFound = true ∧
    ((exportJsonElems c7rows).map (fun e => (e.hash, e.type)) =
      (resolvedFacts c7rows).map (fun f => (f.hash, f.type)) ∧
    factualBlocks c7rows = (resolvedFacts c7rows).map writeFactual ∧
    (∀ f ∈ resolvedFacts c7rows, ∃ rest,
      writeFactual f = declChars f.fact_id f.type ++ rest) ∧
    (resolvedFacts c7rows).length = c7rows.length) :=
  ⟨by decide, c7_format_equivalence c7rows (by decide)⟩

/-! ### C9 -/

/-- C9: a fact with no declared predecessor roles is never excluded: the
`LEFT JOIN` row construction yields one row per fact (even with no
incoming aggregation, in which case the coalesced candidate array is
empty), the row always resolves — vacuously, regardless of its candidate
array — and it is emitted with an empty predecessors object in the
PlainGraph output. -/
theorem c9_root_fact (facts : List DbFact) (edges : List DbEdge) (f : DbFact)
    (hf : f ∈ facts) (hroot : f.predecessors = []) :
    (buildRows facts edges).length = facts.length ∧
    ∃ r ∈ buildRows facts edges,
      r.fact_id = f.fact_id ∧ r.hash = f.hash ∧ r.type = f.type ∧
      r.fields = f.fields ∧ r.predecessors = [] ∧
      ((∀ e ∈ edges, e.successor_fact_id ≠ f.fact_id) → r.predecessor_array = []) ∧
      ∃ g, resolveRow r = some g ∧ g.predecessors = [] ∧
        g ∈ resolvedFacts (buildRows facts edges) ∧
        (stripIdFromFact g).predecessors = [] ∧
        stripIdFromFact g ∈ exportJsonElems (buildRows facts edges) := by
  refine ⟨by simp [buildRows], ?_⟩
  set r : RawFactRow :=
    { fact_id := f.fact_id, hash := f.hash, type := f.type
      fields := f.fields, predecessors := f.predecessors
      predecessor_array := candidatesFor facts edges f.fact_id } with hr
  have hrmem : r ∈ buildRows facts edges := List.mem_map.mpr ⟨f, hf, rfl⟩
  have hg : resolveRow r =
      some ⟨f.fact_id, f.hash, f.type, [], f.fields⟩ := by
    simp [resolveRow, hr, hroot, resolveAll]
  refine ⟨r, hrmem, rfl, rfl, rfl, rfl, by simp [hr, hroot], ?_, ?_⟩
  · intro hnoedge
    simp only [hr]
    show candidatesFor facts edges f.fact_id = []
    unfold candidatesFor
    have : edges.filter (fun e => e.successor_fact_id == f.fact_id) = [] := by
      rw [List.filter_eq_nil_iff]
      intro e he
      simpa using hnoedge e he
    rw [this]
    rfl
  · refine ⟨_, hg, rfl, ?_, rfl, ?_⟩
    · exact List.mem_filterMap.mpr ⟨r, hrmem, hg⟩
    · unfold exportJsonElems
      rw [runExport_eq_filterMap]
      exact List.mem_filterMap.mpr ⟨r, hrmem, by rw [hg]; rfl⟩

/-- Concrete store for the C9 witness: one root fact, one successor, one
edge; the root has no incoming edge, hence an empty candidate array. -/
def c9facts : List DbFact :=
  [{ fact_id := 1, hash := "h1", type := "Site"
     fields := [("domain", .str "example.com")]
     predecessors := [] },
   { fact_id := 2, hash := "h2", type := "Post"
     fields := []
     predecessors := [("site", .single ⟨"h1", "Site"⟩)] }]

def c9edges : List DbEdge := [{ predecessor_fact_id := 1, successor_fact_id := 2 }]

def c9root : DbFact :=
  { fact_id := 1, hash := "h1", type := "Site"
    fields := [("domain", .str "example.com")]
    predecessors := [] }

theorem c9_witness :
    (c9root ∈ c9facts ∧ c9root.predecessors = []) ∧
    ((buildRows c9facts c9edges).length = c9facts.length ∧
    ∃ r ∈ buildRows c9facts c9edges,
      r.fact_id = c9root.fact_id ∧ r.hash = c9root.hash ∧ r.type = c9root.type ∧
      r.fields = c9root.fields ∧ r.predecessors = [] ∧
      ((∀ e ∈ c9edges, e.successor_fact_id ≠ c9root.fact_id) → r.predecessor_array = []) ∧
      ∃ g, resolveRow r = some g ∧ g.predecessors = [] ∧
        g ∈ resolvedFacts (buildRows c9facts c9edges) ∧
        (stripIdFromFact g).predecessors = [] ∧
        stripIdFromFact g ∈ exportJsonElems (buildRows c9facts c9edges)) :=
  ⟨⟨by decide, by decide⟩, c9_root_fact c9facts c9edges c9root (by decide) (by decide)⟩

/-! ### Index lemmas for order preservation -/

theorem filterMap_get?_exists {α β : Type} (f : α → Option β) :
    ∀ (l : List α) (i : Nat) (b : β), (l.filterMap f).get? i = some b →
      ∃ s a, l.get? s = some a ∧ f a = some b := by
  intro l
  induction l with
  | nil => intro i b h; simp at h
  | cons x xs ih =>
    intro i b h
    cases hx : f x with
    | none =>
      rw [List.filterMap_cons_none hx] at h
      obtain ⟨s, a, hs, hfa⟩ := ih i b h
      exact ⟨s + 1, a, by simpa using hs, hfa⟩
    | some y =>
      rw [List.filterMap_cons_some hx] at h
      cases i with
      | zero =>
        rw [List.get?_cons_zero] at h
        injection h with hyb
        exact ⟨0, x, rfl, by rw [hx, hyb]⟩
      | succ i2 =>
        rw [List.get?_cons_succ] at h
        obtain ⟨s, a, hs, hfa⟩ := ih i2 b h
        exact ⟨s + 1, a, by simpa using hs, hfa⟩

theorem filterMap_get?_mono {α β : Type} (f : α → Option β) :
    ∀ (l : List α) (i j : Nat) (bi bj : β), i < j →
      (l.filterMap f).get? i = some bi → (l.filterMap f).get? j = some bj →
      ∃ si sj ai aj, si < sj ∧ l.get? si = some ai ∧ f ai = some bi ∧
        l.get? sj = some aj ∧ f aj = some bj := by
  intro l
  induction l with
  | nil => intro i j bi bj hij hi hj; simp at hi
  | cons x xs ih =>
    intro i j bi bj hij hi hj
    cases hx : f x with
    | none =>
      rw [List.filterMap_cons_none hx] at hi hj
      obtain ⟨si, sj, ai, aj, hlt, h1, h2, h3, h4⟩ := ih i j bi bj hij hi hj
      exact ⟨si + 1, sj + 1, ai, aj, by omega, by simpa using h1, h2,
        by simpa using h3, h4⟩
    | some y =>
      rw [List.filterMap_cons_some hx] at hi hj
      cases i with
      | zero =>
        cases j with
        | zero => omega
        | succ j2 =>
          rw [List.get?_cons_zero] at hi
          rw [List.get?_cons_succ] at hj
          injection hi with hyb
          obtain ⟨s, a, hs, hfa⟩ := filterMap_get?_exists f xs j2 bj hj
          exact ⟨0, s + 1, x, a, by omega, rfl, by rw [hx, hyb],
            by simpa using hs, hfa⟩
      | succ i2 =>
        cases j with
        | zero => omega
        | succ j2 =>
          rw [List.get?_cons_succ] at hi hj
          obtain ⟨si, sj, ai, aj, hlt, h1, h2, h3, h4⟩ :=
            ih i2 j2 bi bj (by omega) hi hj
          exact ⟨si + 1, sj + 1, ai, aj, by omega, by simpa using h1, h2,
            by simpa using h3, h4⟩

theorem forall2_exists_left {α β : Type} {R : α → β → Prop} :
    ∀ {l1 : List α} {l2 : List β}, List.Forall₂ R l1 l2 →
      ∀ b ∈ l2, ∃ a ∈ l1, R a b := by
  intro l1 l2 hl
  induction hl with
  | nil => intro b hb; cases hb
  | @cons a b l1t l2t hR _ ih =>
    intro b2 hb2
    rcases List.mem_cons.mp hb2 with heq | hmem
    · subst heq
      exact ⟨a, List.mem_cons_self a l1t, hR⟩
    · obtain ⟨a2, ha2, hab⟩ := ih b2 hmem
      exact ⟨a2, List.mem_cons_of_mem a ha2, hab⟩

/-- Every candidate substituted into a resolved fact has the `(hash, type)`
identity of one of the row's declared references. -/
theorem resolveRow_pred_declared {row : RawFactRow} {F : FactInformationWithId}
    (h : resolveRow row = some F) :
    ∀ kv ∈ F.predecessors, ∀ c ∈ refsOfResolved kv.2,
      ∃ p ∈ declaredRefs row, p.hash = c.hash ∧ p.type = c.type := by
  intro kv hkv c hc
  have hfa := (resolveRow_eq_some h).2.2.2.2
  obtain ⟨kd, hkd, hkey, hvm⟩ := forall2_exists_left hfa kv hkv
  cases hd : kd.2 with
  | single p =>
    cases hv : kv.2 with
    | single c2 =>
      rw [hd, hv] at hvm
      rw [hv] at hc
      simp only [refsOfResolved, List.mem_singleton] at hc
      subst hc
      exact ⟨p, List.mem_flatMap.mpr ⟨kd, hkd, by rw [hd]; exact List.mem_singleton.mpr rfl⟩,
        hvm.2.2.1.symm, hvm.2.1.symm⟩
    | multiple cs => rw [hd, hv] at hvm; cases hvm
  | multiple ps =>
    cases hv : kv.2 with
    | single c2 => rw [hd, hv] at hvm; cases hvm
    | multiple cs =>
      rw [hd, hv] at hvm
      rw [hv] at hc
      simp only [refsOfResolved] at hc
      obtain ⟨p, hp, hrm⟩ := forall2_exists_left hvm c hc
      exact ⟨p, List.mem_flatMap.mpr ⟨kd, hkd, by rw [hd]; exact hp⟩,
        hrm.2.2.1.symm, hrm.2.1.symm⟩

/-- Extraction from the source-order invariant: any row matching a
reference declared by row `sj` sits strictly before `sj`. -/
theorem sourceOrderInv_lt {rows : List RawFactRow}
    (h : sourceOrderInv rows = true) :
    ∀ sj rj, rows.get? sj = some rj → ∀ p ∈ declaredRefs rj,
      ∀ si q, rows.get? si = some q → matchRef q p = true → si < sj := by
  intro sj rj hgetj p hp si q hgeti hmatch
  have hsjlen : sj < rows.length := by
    by_contra hlen
    push_neg at hlen
    rw [List.get?_eq_none.mpr hlen] at hgetj
    cases hgetj
  have hsilen : si < rows.length := by
    by_contra hlen
    push_neg at hlen
    rw [List.get?_eq_none.mpr hlen] at hgeti
    cases hgeti
  have h1 := List.all_eq_true.mp h sj (List.mem_range.mpr hsjlen)
  rw [hgetj] at h1
  simp only [Option.elim] at h1
  have h2 := List.all_eq_true.mp h1 p hp
  rw [Bool.and_eq_true] at h2
  have h3 := List.all_eq_true.mp h2.2 si (List.mem_range.mpr hsilen)
  rw [hgeti] at h3
  simp only [Option.elim, hmatch, Bool.not_true, Bool.false_or] at h3
  exact of_decide_eq_true h3

/-! ### C3 -/

/-- Counterexample rows for C3: `c3X` is a root; `c3P` declares a
reference to `c3X` but its genuinely delivered (non-empty) candidate
array holds only a mismatched entry — the store's edge relation
disagrees with its declared predecessors, the very inconsistency the
drop policy is for — so `c3P` is silently dropped; `c3F` references
`c3P` and resolves. The source order `X, P, F` satisfies the documented
source-order invariant, and every row's aggregate is deliverable as a
JSON array (or never consulted). -/
def c3X : RawFactRow :=
  { fact_id := 10, hash := "hx", type := "T", fields := []
    predecessors := [], predecessor_array := [] }

def c3P : RawFactRow :=
  { fact_id := 11, hash := "hp", type := "T", fields := []
    predecessors := [("a", .single ⟨"hx", "T"⟩)]
    predecessor_array := [⟨"hz", "Z", 99⟩] }

def c3F : RawFactRow :=
  { fact_id := 12, hash := "hf", type := "T", fields := []
    predecessors := [("b", .single ⟨"hp", "T"⟩)]
    predecessor_array := [⟨"hp", "T", 11⟩] }

def c3rows : List RawFactRow := [c3X, c3P, c3F]

/-- C3 is false as stated: under the source-order invariant alone, an
emitted fact can reference a predecessor whose own row was dropped, so no
block for that predecessor appears before (or anywhere): in `c3rows` —
every row of deliverable shape, `c3P` dropped by a genuine lookup miss in
its non-empty candidate array — the resolved output is `[X, F]` (also
what the delivered-shape pipeline emits, ending in the success state),
the fact at position 1 carries the resolved reference `("hp", "T", 11)`,
yet no emitted fact before position 1 has identity `("hp", "T")`. -/
theorem c3_counterexample :
    sourceOrderInv c3rows = true ∧
    c3rows.all arrayDelivered = true ∧
    allFound c3P = false ∧
    (resolvedFacts c3rows).get? 1 =
      some ⟨12, "hf", "T", [("b", .single ⟨"hp", "T", 11⟩)], []⟩ ∧
    (driveWire (fun g => Except.ok (writeFactual g))
      [Except.ok (c3rows.map sqlWire), Except.ok []]).emitted =
      (resolvedFacts c3rows).map writeFactual ∧
    (driveWire (fun g => Except.ok (writeFactual g))
      [Except.ok (c3rows.map sqlWire), Except.ok []]).mode = DriveMode.closedOk ∧
    ("b", ResolvedValue.single ⟨"hp", "T", 11⟩) ∈
      (⟨12, "hf", "T", [("b", .single ⟨"hp", "T", 11⟩)], []⟩ :
        FactInformationWithId).predecessors ∧
    (⟨"hp", "T", 11⟩ : PredecessorInformationWithId) ∈
      refsOfResolved (ResolvedValue.single ⟨"hp", "T", 11⟩) ∧
    ¬ ∃ g ∈ (resolvedFacts c3rows).take 1, g.hash = "hp" ∧ g.type = "T" := by
  refine ⟨by decide, by decide, by decide, by decide, ?_, ?_, by decide, by decide,
    by decide⟩
  · rw [driveWire_total writeFactual c3rows (by decide)]
    decide
  · rw [driveWire_total writeFactual c3rows (by decide)]

/-- C3 amended: over rows of deliverable shape satisfying the
source-order invariant, the DeclarativeText pipeline emits blocks in
exactly the source row order restricted to resolved facts (shown both for
the abstract batch loop and for the delivered-shape driver, which ends in
the success state), and for every emitted fact `F` and every predecessor
`P` referenced by `F` **that is itself emitted**, `P`'s block appears
strictly before `F`'s block (every emitted fact carrying the referenced
`(hash, type)` identity sits at a strictly smaller output position). The
original claim fails only when `P`'s own row is dropped and no block for
`P` exists at all. -/
theorem c3_order_preservation_amended (rows : List RawFactRow)
    (h : sourceOrderInv rows = true) (hreal : rows.all arrayDelivered = true) :
    factualBlocks rows = (resolvedFacts rows).map writeFactual ∧
    (driveWire (fun g => Except.ok (writeFactual g))
      [Except.ok (rows.map sqlWire), Except.ok []]).emitted =
      (resolvedFacts rows).map writeFactual ∧
    (driveWire (fun g => Except.ok (writeFactual g))
      [Except.ok (rows.map sqlWire), Except.ok []]).mode = DriveMode.closedOk ∧
    ∀ j F, (resolvedFacts rows).get? j = some F →
      ∀ kv ∈ F.predecessors, ∀ c ∈ refsOfResolved kv.2,
        ∀ i g, (resolvedFacts rows).get? i = some g →
          g.hash = c.hash → g.type = c.type → i < j := by
  refine ⟨?_, ?_, ?_, ?_⟩
  · unfold factualBlocks resolvedFacts
    rw [runExport_eq_filterMap, ← List.map_filterMap]
  · rw [driveWire_total writeFactual rows hreal]
    unfold resolvedFacts
    rw [← List.map_filterMap]
  · rw [driveWire_total writeFactual rows hreal]
  · intro j F hF kv hkv c hc i g hg hh ht
    by_contra hij
    push_neg at hij
    rcases Nat.lt_or_ge j i with hji | hji
    · -- an emitted fact with the referenced identity sits after F
      obtain ⟨sF, sg, rowF, rowg, hslt, hgetF, hresF, hgetg, hresg⟩ :=
        filterMap_get?_mono resolveRow rows j i F g hji hF hg
      have hgid := resolveRow_eq_some hresg
      obtain ⟨p, hpmem, hph, hpt⟩ := resolveRow_pred_declared hresF kv hkv c hc
      have hmatch : matchRef rowg p = true := by
        simp only [matchRef, Bool.and_eq_true, beq_iff_eq]
        constructor
        · rw [← hgid.2.2.1, ht, ← hpt]
        · rw [← hgid.2.1, hh, ← hph]
      have := sourceOrderInv_lt h sF rowF hgetF p hpmem sg rowg hgetg hmatch
      omega
    · -- i = j: F would reference its own identity
      have hji2 : i = j := by omega
      subst hji2
      rw [hF] at hg
      injection hg with hg2
      subst hg2
      obtain ⟨s, rowF, hget, hres⟩ := filterMap_get?_exists resolveRow rows i F hF
      have hgid := resolveRow_eq_some hres
      obtain ⟨p, hpmem, hph, hpt⟩ := resolveRow_pred_declared hres kv hkv c hc
      have hmatch : matchRef rowF p = true := by
        simp only [matchRef, Bool.and_eq_true, beq_iff_eq]
        constructor
        · rw [← hgid.2.2.1, ht, ← hpt]
        · rw [← hgid.2.1, hh, ← hph]
      have := sourceOrderInv_lt h s rowF hget p hpmem s rowF hget hmatch
      omega

/-- Witness rows for the amended C3: a root and a successor referencing
it, in causal source order, both of deliverable shape. -/
def c3wrows : List RawFactRow :=
  [{ fact_id := 1, hash := "h1", type := "Site"
     fields := [("domain", .str "example.com")]
     predecessors := [], predecessor_array := [] },
   { fact_id := 2, hash := "h2", type := "Post"
     fields := []
     predecessors := [("site", .single ⟨"h1", "Site"⟩)]
     predecessor_array := [⟨"h1", "Site", 1⟩] }]

theorem c3_witness :
    (sourceOrderInv c3wrows = true ∧ c3wrows.all arrayDelivered = true) ∧
    (factualBlocks c3wrows = (resolvedFacts c3wrows).map writeFactual ∧
    (driveWire (fun g => Except.ok (writeFactual g))
      [Except.ok (c3wrows.map sqlWire), Except.ok []]).emitted =
      (resolvedFacts c3wrows).map writeFactual ∧
    (driveWire (fun g => Except.ok (writeFactual g))
      [Except.ok (c3wrows.map sqlWire), Except.ok []]).mode = DriveMode.closedOk ∧
    ∀ j F, (resolvedFacts c3wrows).get? j = some F →
      ∀ kv ∈ F.predecessors, ∀ c ∈ refsOfResolved kv.2,
        ∀ i g, (resolvedFacts c3wrows).get? i = some g →
          g.hash = c.hash → g.type = c.type → i < j) :=
  ⟨⟨by decide, by decide⟩,
    c3_order_preservation_amended c3wrows (by decide) (by decide)⟩

/-! ### C8 -/

/-- C8 is false as stated: on a batch read failure the `catch` branch
calls `this.destroy(error)` and nothing else — the open cursor is *not*
closed on the way to the errored state. -/
theorem c8_counterexample :
    (drive (fun fct => Except.ok (stripIdFromFact fct))
      [Except.error "batch read failure"]).mode = DriveMode.errored ∧
    (drive (fun fct => Except.ok (stripIdFromFact fct))
      [Except.error "batch read failure"]).cursorClosed = false :=
  ⟨rfl, rfl⟩

/-- C8 amended: `cursor.close()` is called exactly on the success path,
when the empty batch is received; every path that ends errored (batch
read failure or formatter failure) — and the artificial exhausted case —
leaves the cursor open. -/
theorem c8_cursor_close_amended {T : Type}
    (f : FactInformationWithId → Except String T)
    (batches : List (Except String (List RawFactRow))) :
    (drive f batches).cursorClosed =
      decide ((drive f batches).mode = DriveMode.closedOk) := by
  induction batches with
  | nil => rfl
  | cons b rest ih =>
    cases b with
    | error e => rfl
    | ok rows =>
      cases rows with
      | nil => rfl
      | cons r rs =>
        rw [drive]
        rcases hp : processRows f (r :: rs) with ⟨ts, err⟩
        cases err with
        | none => simpa using ih
        | some e => rfl
